import Mathlib

/-!
# Verification of the `llama` terminal file navigator (`src/main.go`)

A shallow embedding of the navigation / layout state machine of `main.go`
together with proofs and refutations of the specification's claims.

Modelling conventions:
* Go `int` fields are modelled as `Int`.  Go's integer division and modulus
  truncate toward zero, which is `Int.tdiv` / `Int.tmod` in Lean (for the
  nonnegative operands that occur in the modelled scenarios they agree with
  `/` and `%`).
* Go `len(s)` on a string counts bytes; we model it with `String.utf8ByteSize`.
* `m.files` (a `[]fs.DirEntry`) is modelled as a `List DirEntry` carrying the
  name and the is-directory flag, which is all the navigator reads from it.
* The Go map `m.positions` is modelled as a function `String → Option Position`
  with pointwise update, exactly the map's read/write semantics.
* External collaborators (the fuzzy matcher `fuzzy.Find`, `utf8.Valid`,
  UTF-8 decoding, `lipgloss` styling, the file system) are taken as explicit
  function parameters; the code under verification is everything around them.
-/

namespace Llama

/-- One directory entry: the name and the is-directory flag
(the two things `main.go` reads from an `fs.DirEntry`). -/
structure DirEntry where
  name : String
  isDir : Bool
deriving Repr, DecidableEq

/-- Go struct `position` (`main.go` lines 110-113): a saved cursor state. -/
structure Position where
  c : Int
  r : Int
  offset : Int
deriving Repr, DecidableEq

/-- Go struct `model` (`main.go` lines 91-108).  Only `exitCode` is dropped
(no claim mentions it).  `positions` is the Go map `map[string]position`. -/
structure Model where
  path : String
  files : List DirEntry
  c : Int
  r : Int
  columns : Int
  rows : Int
  width : Int
  height : Int
  offset : Int
  positions : String → Option Position
  search : String
  searchMode : Bool
  searchId : Int
  matchedIndexes : List Int
  prevName : String
  findPrevName : Bool
  previewMode : Bool
  previewContent : String

/-- `len(m.files)` as a Go `int`. -/
def nfiles (m : Model) : Int :=
  (m.files.length : Int)

/-! ## Cursor navigator (`main.go` lines 336-406)

Each Go statement / `if` block is one `let` rebinding, so the sequential
mutations of the Go methods are mirrored exactly. -/

/-- `func (m *model) moveUp()`, lines 336-346. -/
def moveUp (m : Model) : Model :=
  let m := { m with r := m.r - 1 }
  let m := if m.r < 0 then { m with r := m.rows - 1, c := m.c - 1 } else m
  if m.c < 0 then
    { m with r := m.rows - 1 - (m.columns * m.rows - nfiles m), c := m.columns - 1 }
  else m

/-- `func (m *model) moveDown()`, lines 348-361. -/
def moveDown (m : Model) : Model :=
  let m := { m with r := m.r + 1 }
  let m := if m.r ≥ m.rows then { m with r := 0, c := m.c + 1 } else m
  let m := if m.c ≥ m.columns then { m with c := 0 } else m
  if m.c = m.columns - 1 ∧ (m.columns - 1) * m.rows + m.r ≥ nfiles m then
    { m with r := 0, c := 0 }
  else m

/-- `func (m *model) moveLeft()`, lines 363-372. -/
def moveLeft (m : Model) : Model :=
  let m := { m with c := m.c - 1 }
  let m := if m.c < 0 then { m with c := m.columns - 1 } else m
  if m.c = m.columns - 1 ∧ (m.columns - 1) * m.rows + m.r ≥ nfiles m then
    { m with r := m.rows - 1 - (m.columns * m.rows - nfiles m), c := m.columns - 1 }
  else m

/-- `func (m *model) moveRight()`, lines 374-383. -/
def moveRight (m : Model) : Model :=
  let m := { m with c := m.c + 1 }
  let m := if m.c ≥ m.columns then { m with c := 0 } else m
  if m.c = m.columns - 1 ∧ (m.columns - 1) * m.rows + m.r ≥ nfiles m then
    { m with r := m.rows - 1 - (m.columns * m.rows - nfiles m), c := m.columns - 1 }
  else m

/-- `func (m *model) moveTop()`, lines 385-387. -/
def moveTop (m : Model) : Model :=
  { m with r := 0 }

/-- `func (m *model) moveBottom()`, lines 389-394. -/
def moveBottom (m : Model) : Model :=
  let m := { m with r := m.rows - 1 }
  if m.c = m.columns - 1 ∧ (m.columns - 1) * m.rows + m.r ≥ nfiles m then
    { m with r := m.rows - 1 - (m.columns * m.rows - nfiles m) }
  else m

/-- `func (m *model) moveLeftmost()`, lines 396-398. -/
def moveLeftmost (m : Model) : Model :=
  { m with c := 0 }

/-- `func (m *model) moveRightmost()`, lines 400-406. -/
def moveRightmost (m : Model) : Model :=
  let m := { m with c := m.columns - 1 }
  if m.c = m.columns - 1 ∧ (m.columns - 1) * m.rows + m.r ≥ nfiles m then
    { m with r := m.rows - 1 - (m.columns * m.rows - nfiles m), c := m.columns - 1 }
  else m

/-- The eight directional intents of the navigator. -/
inductive Move where
  | up | down | left | right | top | bottom | leftmost | rightmost
deriving Repr, DecidableEq

/-- Dispatch a directional intent to the corresponding `model` method. -/
def applyMove : Move → Model → Model
  | .up => moveUp
  | .down => moveDown
  | .left => moveLeft
  | .right => moveRight
  | .top => moveTop
  | .bottom => moveBottom
  | .leftmost => moveLeftmost
  | .rightmost => moveRightmost

/-- Apply a sequence of directional moves, left to right. -/
def applyMoves (ms : List Move) (m : Model) : Model :=
  ms.foldl (fun m mv => applyMove mv m) m

/-- The linear entry index the cursor denotes (`m.c*m.rows + m.r`). -/
def cursorIdx (m : Model) : Int :=
  m.c * m.rows + m.r

/-- A valid cursor in the sense of the claims:
`0 ≤ column < columns`, `0 ≤ row < rows`, `column*rows + row < N`. -/
def validCursor (m : Model) : Prop :=
  0 ≤ m.c ∧ m.c < m.columns ∧ 0 ≤ m.r ∧ m.r < m.rows ∧ cursorIdx m < nfiles m

instance (m : Model) : Decidable (validCursor m) := by
  unfold validCursor; infer_instance

/-- Grid geometry in which every column, the last one included, holds at
least one entry: `(columns-1)*rows < N ≤ columns*rows` with `columns ≥ 1`.
The layouts of `View` satisfy `rows = ceil(N/columns)`, hence
`N ≤ columns*rows`; the extra condition `(columns-1)*rows < N` excludes
layouts whose trailing columns are entirely empty. -/
def fullGrid (m : Model) : Prop :=
  1 ≤ m.columns ∧ 0 < nfiles m ∧ nfiles m ≤ m.columns * m.rows ∧
    (m.columns - 1) * m.rows < nfiles m

instance (m : Model) : Decidable (fullGrid m) := by
  unfold fullGrid; infer_instance

/-- A base model to build concrete test states from. -/
def baseModel : Model where
  path := "/p"
  files := []
  c := 0
  r := 0
  columns := 1
  rows := 0
  width := 80
  height := 60
  offset := 0
  positions := fun _ => none
  search := ""
  searchMode := false
  searchId := 0
  matchedIndexes := []
  prevName := ""
  findPrevName := false
  previewMode := false
  previewContent := ""

/-- Six one-byte file names, used by concrete counterexamples. -/
def sixFiles : List DirEntry :=
  [⟨"a", false⟩, ⟨"b", false⟩, ⟨"d", false⟩, ⟨"e", false⟩, ⟨"f", false⟩, ⟨"i", false⟩]

/-- A state whose layout has an entirely empty trailing column:
6 entries in 5 columns of 2 rows (`rows = ceil(6/5) = 2`), cursor on the
valid cell `(2,0)` (linear index 4). -/
def emptyColModel : Model :=
  { baseModel with files := sixFiles, columns := 5, rows := 2, c := 2, r := 0 }

/-- In a full grid the row count is positive. -/
theorem fullGrid_rows_pos (m : Model) (hg : fullGrid m) : 1 ≤ m.rows := by
  obtain ⟨hC, hn, hnCR, _⟩ := hg
  by_contra h
  push_neg at h
  have h0 : m.rows ≤ 0 := by omega
  have : m.columns * m.rows ≤ 0 := mul_nonpos_of_nonneg_of_nonpos (by omega) h0
  omega

/-- Monotonicity of multiplication by the (nonnegative) row count. -/
theorem mul_rows_le (m : Model) (hR : 0 ≤ m.rows) {a b : Int} (h : a ≤ b) :
    a * m.rows ≤ b * m.rows :=
  mul_le_mul_of_nonneg_right h hR

/-- `moveUp` preserves cursor validity on full grids. -/
theorem validCursor_moveUp (m : Model) (hg : fullGrid m) (hv : validCursor m) :
    validCursor (moveUp m) := by
  have hR : 1 ≤ m.rows := fullGrid_rows_pos m hg
  obtain ⟨hC, hn, hnCR, hlast⟩ := hg
  obtain ⟨hc0, hcC, hr0, hrR, hidx⟩ := hv
  have e1 : (m.columns - 1) * m.rows = m.columns * m.rows - m.rows := by ring
  have e2 : (m.c - 1) * m.rows = m.c * m.rows - m.rows := by ring
  unfold cursorIdx at hidx
  simp only [moveUp]
  split_ifs with h1 h2 h3 <;>
    dsimp only [validCursor, cursorIdx, nfiles] at * <;>
    exact ⟨by linarith, by linarith, by linarith, by linarith, by linarith⟩

/-- `moveDown` preserves cursor validity on full grids. -/
theorem validCursor_moveDown (m : Model) (hg : fullGrid m) (hv : validCursor m) :
    validCursor (moveDown m) := by
  have hR : 1 ≤ m.rows := fullGrid_rows_pos m hg
  obtain ⟨hC, hn, hnCR, hlast⟩ := hg
  obtain ⟨hc0, hcC, hr0, hrR, hidx⟩ := hv
  have e1 : (m.columns - 1) * m.rows = m.columns * m.rows - m.rows := by ring
  have e3 : (m.c + 1) * m.rows = m.c * m.rows + m.rows := by ring
  have hmono : ∀ a b : Int, a ≤ b → a * m.rows ≤ b * m.rows :=
    fun a b h => mul_le_mul_of_nonneg_right h (by linarith)
  unfold cursorIdx at hidx
  simp only [moveDown]
  split_ifs with h1 h2 h3 h4 h5 h6 h7 <;>
    dsimp only [validCursor, cursorIdx, nfiles] at * <;>
    first
      | exact ⟨by linarith, by linarith, by linarith, by linarith, by linarith⟩
      | exact ⟨by linarith, by linarith, by linarith, by linarith, by
          linarith [hmono (m.c + 1) (m.columns - 1) (by omega)]⟩
      | (by_cases hc : m.c = m.columns - 1
         · have hb : (m.columns - 1) * m.rows + (m.r + 1) < (m.files.length : Int) := by
             by_contra hb
             exact h7 ⟨hc, by linarith⟩
           exact ⟨by linarith, by linarith, by linarith, by linarith, by rw [hc]; linarith⟩
         · have hb : (m.c + 1) * m.rows ≤ (m.columns - 1) * m.rows := hmono _ _ (by omega)
           exact ⟨by linarith, by linarith, by linarith, by linarith, by linarith⟩)

/-- `moveLeft` preserves cursor validity on full grids. -/
theorem validCursor_moveLeft (m : Model) (hg : fullGrid m) (hv : validCursor m) :
    validCursor (moveLeft m) := by
  have hR : 1 ≤ m.rows := fullGrid_rows_pos m hg
  obtain ⟨hC, hn, hnCR, hlast⟩ := hg
  obtain ⟨hc0, hcC, hr0, hrR, hidx⟩ := hv
  have e1 : (m.columns - 1) * m.rows = m.columns * m.rows - m.rows := by ring
  have e2 : (m.c - 1) * m.rows = m.c * m.rows - m.rows := by ring
  unfold cursorIdx at hidx
  simp only [moveLeft]
  split_ifs with h1 h2 h3 <;>
    dsimp only [validCursor, cursorIdx, nfiles] at * <;>
    first
      | exact ⟨by linarith, by linarith, by linarith, by linarith, by linarith⟩
      | (have hb : (m.columns - 1) * m.rows + m.r < (m.files.length : Int) := by
           by_contra hb
           exact h2 ⟨by trivial, by linarith⟩
         exact ⟨by linarith, by linarith, by linarith, by linarith, by linarith⟩)

/-- `moveRight` preserves cursor validity on full grids. -/
theorem validCursor_moveRight (m : Model) (hg : fullGrid m) (hv : validCursor m) :
    validCursor (moveRight m) := by
  have hR : 1 ≤ m.rows := fullGrid_rows_pos m hg
  obtain ⟨hC, hn, hnCR, hlast⟩ := hg
  obtain ⟨hc0, hcC, hr0, hrR, hidx⟩ := hv
  have e1 : (m.columns - 1) * m.rows = m.columns * m.rows - m.rows := by ring
  have e4 : (m.c + 2) * m.rows = (m.c + 1) * m.rows + m.rows := by ring
  have hmono : ∀ a b : Int, a ≤ b → a * m.rows ≤ b * m.rows :=
    fun a b h => mul_le_mul_of_nonneg_right h (by linarith)
  unfold cursorIdx at hidx
  simp only [moveRight]
  split_ifs with h1 h2 h3 <;>
    dsimp only [validCursor, cursorIdx, nfiles] at *
  · -- wrapped to column 0 and the guard fired: forces `columns = 1`, `c = 0`,
    -- which contradicts the cursor's validity
    exfalso
    have hcol : m.columns = 1 := by omega
    have hc' : m.c = 0 := by omega
    have hz : (m.columns - 1) * m.rows = 0 := by
      rw [show m.columns - 1 = (0 : Int) from by omega, zero_mul]
    have hcz : m.c * m.rows = 0 := by rw [hc', zero_mul]
    linarith [h2.2]
  · -- wrapped to column 0, guard not fired
    by_cases hcol : m.columns = 1
    · have hb : (m.columns - 1) * m.rows + m.r < (m.files.length : Int) := by
        by_contra hb
        exact h2 ⟨by omega, by linarith⟩
      have hz : (m.columns - 1) * m.rows = 0 := by
        rw [show m.columns - 1 = (0 : Int) from by omega, zero_mul]
      exact ⟨by linarith, by linarith, by linarith, by linarith, by linarith⟩
    · have hb : (1 : Int) * m.rows ≤ (m.columns - 1) * m.rows := hmono _ _ (by omega)
      exact ⟨by linarith, by linarith, by linarith, by linarith, by linarith⟩
  · -- stepped right into the last column and the guard fired: snap to last entry
    exact ⟨by linarith, by linarith, by linarith, by linarith, by linarith⟩
  · -- stepped right, guard not fired
    by_cases hc : m.c + 1 = m.columns - 1
    · have hb : (m.columns - 1) * m.rows + m.r < (m.files.length : Int) := by
        by_contra hb
        exact h3 ⟨hc, by linarith⟩
      exact ⟨by linarith, by linarith, by linarith, by linarith, by rw [hc]; linarith⟩
    · have hb : (m.c + 2) * m.rows ≤ (m.columns - 1) * m.rows := hmono _ _ (by omega)
      exact ⟨by linarith, by linarith, by linarith, by linarith, by linarith⟩

/-- `moveTop` preserves cursor validity on full grids. -/
theorem validCursor_moveTop (m : Model) (hg : fullGrid m) (hv : validCursor m) :
    validCursor (moveTop m) := by
  have hR : 1 ≤ m.rows := fullGrid_rows_pos m hg
  obtain ⟨hC, hn, hnCR, hlast⟩ := hg
  obtain ⟨hc0, hcC, hr0, hrR, hidx⟩ := hv
  unfold cursorIdx at hidx
  simp only [moveTop]
  dsimp only [validCursor, cursorIdx, nfiles] at *
  exact ⟨by linarith, by linarith, by linarith, by linarith, by linarith⟩

/-- `moveBottom` preserves cursor validity on full grids. -/
theorem validCursor_moveBottom (m : Model) (hg : fullGrid m) (hv : validCursor m) :
    validCursor (moveBottom m) := by
  have hR : 1 ≤ m.rows := fullGrid_rows_pos m hg
  obtain ⟨hC, hn, hnCR, hlast⟩ := hg
  obtain ⟨hc0, hcC, hr0, hrR, hidx⟩ := hv
  have e1 : (m.columns - 1) * m.rows = m.columns * m.rows - m.rows := by ring
  have e3 : (m.c + 1) * m.rows = m.c * m.rows + m.rows := by ring
  have hmono : ∀ a b : Int, a ≤ b → a * m.rows ≤ b * m.rows :=
    fun a b h => mul_le_mul_of_nonneg_right h (by linarith)
  unfold cursorIdx at hidx
  simp only [moveBottom]
  split_ifs with h1 <;>
    dsimp only [validCursor, cursorIdx, nfiles] at *
  · exact ⟨by linarith, by linarith, by linarith, by linarith,
      by rw [h1.1]; linarith⟩
  · by_cases hc : m.c = m.columns - 1
    · have hb : (m.columns - 1) * m.rows + (m.rows - 1) < (m.files.length : Int) := by
        by_contra hb
        exact h1 ⟨hc, by linarith⟩
      exact ⟨by linarith, by linarith, by linarith, by linarith, by rw [hc]; linarith⟩
    · have hb : (m.c + 1) * m.rows ≤ (m.columns - 1) * m.rows := hmono _ _ (by omega)
      exact ⟨by linarith, by linarith, by linarith, by linarith, by linarith⟩

/-- `moveLeftmost` preserves cursor validity on full grids. -/
theorem validCursor_moveLeftmost (m : Model) (hg : fullGrid m) (hv : validCursor m) :
    validCursor (moveLeftmost m) := by
  have hR : 1 ≤ m.rows := fullGrid_rows_pos m hg
  obtain ⟨hC, hn, hnCR, hlast⟩ := hg
  obtain ⟨hc0, hcC, hr0, hrR, hidx⟩ := hv
  have hmono : ∀ a b : Int, a ≤ b → a * m.rows ≤ b * m.rows :=
    fun a b h => mul_le_mul_of_nonneg_right h (by linarith)
  unfold cursorIdx at hidx
  simp only [moveLeftmost]
  dsimp only [validCursor, cursorIdx, nfiles] at *
  by_cases hcol : m.columns = 1
  · have hc' : m.c = 0 := by omega
    have hcz : m.c * m.rows = 0 := by rw [hc', zero_mul]
    exact ⟨by linarith, by linarith, by linarith, by linarith, by linarith⟩
  · have hb : (1 : Int) * m.rows ≤ (m.columns - 1) * m.rows := hmono _ _ (by omega)
    exact ⟨by linarith, by linarith, by linarith, by linarith, by linarith⟩

/-- `moveRightmost` preserves cursor validity on full grids. -/
theorem validCursor_moveRightmost (m : Model) (hg : fullGrid m) (hv : validCursor m) :
    validCursor (moveRightmost m) := by
  have hR : 1 ≤ m.rows := fullGrid_rows_pos m hg
  obtain ⟨hC, hn, hnCR, hlast⟩ := hg
  obtain ⟨hc0, hcC, hr0, hrR, hidx⟩ := hv
  have e1 : (m.columns - 1) * m.rows = m.columns * m.rows - m.rows := by ring
  unfold cursorIdx at hidx
  simp only [moveRightmost]
  split_ifs with h1 <;>
    dsimp only [validCursor, cursorIdx, nfiles] at *
  · exact ⟨by linarith, by linarith, by linarith, by linarith, by linarith⟩
  · have hb : (m.columns - 1) * m.rows + m.r < (m.files.length : Int) := by
      by_contra hb
      exact h1 ⟨by trivial, by linarith⟩
    exact ⟨by linarith, by linarith, by linarith, by linarith, by linarith⟩

/-- Every directional move preserves cursor validity on full grids. -/
theorem validCursor_applyMove (mv : Move) (m : Model) (hg : fullGrid m)
    (hv : validCursor m) : validCursor (applyMove mv m) := by
  cases mv
  · exact validCursor_moveUp m hg hv
  · exact validCursor_moveDown m hg hv
  · exact validCursor_moveLeft m hg hv
  · exact validCursor_moveRight m hg hv
  · exact validCursor_moveTop m hg hv
  · exact validCursor_moveBottom m hg hv
  · exact validCursor_moveLeftmost m hg hv
  · exact validCursor_moveRightmost m hg hv

/-- No directional move touches the grid geometry or the file list. -/
theorem applyMove_geometry (mv : Move) (m : Model) :
    (applyMove mv m).columns = m.columns ∧ (applyMove mv m).rows = m.rows ∧
      (applyMove mv m).files = m.files := by
  cases mv <;>
    simp only [applyMove, moveUp, moveDown, moveLeft, moveRight, moveTop,
      moveBottom, moveLeftmost, moveRightmost] <;>
    (try split_ifs) <;> simp

/-- Directional moves preserve the full-grid property. -/
theorem fullGrid_applyMove (mv : Move) (m : Model) (hg : fullGrid m) :
    fullGrid (applyMove mv m) := by
  obtain ⟨h1, h2, h3⟩ := applyMove_geometry mv m
  unfold fullGrid nfiles at *
  rw [h1, h2, h3]
  exact hg

/-- Move sequences preserve the full grid, cursor validity and the file list. -/
theorem applyMoves_invariant (ms : List Move) (m : Model) (hg : fullGrid m)
    (hv : validCursor m) :
    fullGrid (applyMoves ms m) ∧ validCursor (applyMoves ms m) ∧
      (applyMoves ms m).files = m.files := by
  induction ms generalizing m with
  | nil => exact ⟨hg, hv, rfl⟩
  | cons mv ms ih =>
    have hstep : applyMoves (mv :: ms) m = applyMoves ms (applyMove mv m) := rfl
    rw [hstep]
    obtain ⟨a, b, cEq⟩ := ih (applyMove mv m) (fullGrid_applyMove mv m hg)
      (validCursor_applyMove mv m hg hv)
    exact ⟨a, b, cEq.trans (applyMove_geometry mv m).2.2⟩

/-- C1 counterexample.  The claim asserts that from every state with a valid
cursor (`0 ≤ c < columns`, `0 ≤ r < rows`, `c*rows+r < N`, here with
`rows = ceil(N/columns)` as `View` computes it) every directional move lands
on a linear index in `[0, N)`.  In the 5×2 grid over 6 entries the cursor
`(2,0)` is valid, but `moveRight` moves to column 3 — an entirely empty
column — and the guard `m.c == m.columns-1` does not fire, leaving the
cursor at linear index 6 ≥ N = 6. -/
theorem c1_counterexample :
    validCursor emptyColModel ∧
      ¬(0 ≤ cursorIdx (moveRight emptyColModel) ∧
        cursorIdx (moveRight emptyColModel) < nfiles emptyColModel) := by
  decide

/-- C1 (amended): in a grid whose last column holds at least one entry
(`(columns-1)*rows < N ≤ columns*rows`, `columns ≥ 1`, `N > 0`), from every
state reachable by directional moves from a valid cursor, applying any of the
eight moves yields a cursor whose linear index `column*rows + row` lies in
`[0, N)`. -/
theorem c1_move_index_valid (m : Model) (hg : fullGrid m) (hv : validCursor m)
    (ms : List Move) (mv : Move) :
    0 ≤ cursorIdx (applyMove mv (applyMoves ms m)) ∧
      cursorIdx (applyMove mv (applyMoves ms m)) < nfiles m := by
  obtain ⟨hg', hv', hf⟩ := applyMoves_invariant ms m hg hv
  have hg2 := fullGrid_applyMove mv _ hg'
  have hv2 := validCursor_applyMove mv _ hg' hv'
  have hR : 1 ≤ (applyMove mv (applyMoves ms m)).rows := fullGrid_rows_pos _ hg2
  obtain ⟨hc0, hcC, hr0, hrR, hidx⟩ := hv2
  constructor
  · have := mul_nonneg hc0 (by linarith : (0 : Int) ≤ (applyMove mv (applyMoves ms m)).rows)
    unfold cursorIdx
    linarith
  · have hfm := (applyMove_geometry mv (applyMoves ms m)).2.2
    unfold nfiles at hidx ⊢
    rw [hfm, hf] at hidx
    exact hidx

/-- A proper full grid for witnesses: 6 entries in 2 columns of 3 rows. -/
def fullGridModel : Model :=
  { baseModel with files := sixFiles, columns := 2, rows := 3, c := 0, r := 0 }

/-- Witness for `c1_move_index_valid` at a concrete grid and move sequence. -/
theorem c1_move_index_valid_witness :
    fullGrid fullGridModel ∧ validCursor fullGridModel ∧
      (0 ≤ cursorIdx (applyMove .up (applyMoves [.down, .right] fullGridModel)) ∧
        cursorIdx (applyMove .up (applyMoves [.down, .right] fullGridModel)) <
          nfiles fullGridModel) :=
  ⟨by decide, by decide,
    c1_move_index_valid fullGridModel (by decide) (by decide) [.down, .right] .up⟩

/-- On a full grid `moveDown` advances the linear cursor index by one,
cyclically modulo the entry count. -/
theorem moveDown_cursorIdx (m : Model) (hg : fullGrid m) (hv : validCursor m) :
    cursorIdx (moveDown m) = (cursorIdx m + 1) % nfiles m := by
  have hR : 1 ≤ m.rows := fullGrid_rows_pos m hg
  obtain ⟨hC, hn, hnCR, hlast⟩ := hg
  obtain ⟨hc0, hcC, hr0, hrR, hidx⟩ := hv
  have e1 : (m.columns - 1) * m.rows = m.columns * m.rows - m.rows := by ring
  have e3 : (m.c + 1) * m.rows = m.c * m.rows + m.rows := by ring
  have hmono : ∀ a b : Int, a ≤ b → a * m.rows ≤ b * m.rows :=
    fun a b h => mul_le_mul_of_nonneg_right h (by linarith)
  unfold cursorIdx nfiles at *
  simp only [moveDown]
  have hcz0 : 0 ≤ m.c * m.rows := mul_nonneg hc0 (by linarith)
  split_ifs with h1 h2 h3 h4 h5 h6 h7 <;> dsimp only [cursorIdx, nfiles] at *
  · -- wrap from the very last cell to (0,0); the guard fired
    have hc : m.c = m.columns - 1 := by omega
    have hr : m.r = m.rows - 1 := by omega
    have hcr : m.c * m.rows = (m.columns - 1) * m.rows := by rw [hc]
    have lastCell : m.c * m.rows + m.r = (m.files.length : Int) - 1 :=
      le_antisymm (by linarith) (by linarith)
    rw [lastCell, show ((m.files.length : Int) - 1 + 1) = (m.files.length : Int) from
      by ring, Int.emod_self]
    ring
  · -- wrap from the very last cell to (0,0); the guard did not fire
    have hc : m.c = m.columns - 1 := by omega
    have hr : m.r = m.rows - 1 := by omega
    have hcr : m.c * m.rows = (m.columns - 1) * m.rows := by rw [hc]
    have lastCell : m.c * m.rows + m.r = (m.files.length : Int) - 1 :=
      le_antisymm (by linarith) (by linarith)
    rw [lastCell, show ((m.files.length : Int) - 1 + 1) = (m.files.length : Int) from
      by ring, Int.emod_self]
    ring
  · -- guard fired on a non-last column: contradicts the full-grid hypothesis
    exact absurd h4.2 (by linarith)
  · -- step to the top of the next column
    have hr : m.r = m.rows - 1 := by omega
    have hstep : (m.c + 1) * m.rows ≤ (m.columns - 1) * m.rows := hmono _ _ (by omega)
    have hlt : m.c * m.rows + m.r + 1 < (m.files.length : Int) := by linarith
    rw [Int.emod_eq_of_lt (by linarith) hlt]
    linarith
  · exact absurd h5 (by linarith)
  · exact absurd h5 (by linarith)
  · -- guard fired inside the last column: wrap to (0,0) from the last entry
    have hcr : m.c * m.rows = (m.columns - 1) * m.rows := by rw [h7.1]
    have hone : m.c * m.rows + m.r + 1 = (m.files.length : Int) :=
      le_antisymm (by linarith) (by linarith [h7.2])
    rw [hone, Int.emod_self]
    ring
  · -- plain step down inside a column
    have hlt : m.c * m.rows + m.r + 1 < (m.files.length : Int) := by
      by_cases hc : m.c = m.columns - 1
      · have hcr : m.c * m.rows = (m.columns - 1) * m.rows := by rw [hc]
        have hb : (m.columns - 1) * m.rows + (m.r + 1) < (m.files.length : Int) := by
          by_contra hb
          exact h7 ⟨hc, by linarith⟩
        linarith
      · have hstep : (m.c + 1) * m.rows ≤ (m.columns - 1) * m.rows := hmono _ _ (by omega)
        linarith
    rw [Int.emod_eq_of_lt (by linarith) hlt]
    ring

/-- Directional move sequences preserve the grid geometry and the file list. -/
theorem applyMoves_geometry (ms : List Move) (m : Model) :
    (applyMoves ms m).columns = m.columns ∧ (applyMoves ms m).rows = m.rows ∧
      (applyMoves ms m).files = m.files := by
  induction ms generalizing m with
  | nil => exact ⟨rfl, rfl, rfl⟩
  | cons mv ms ih =>
    have hstep : applyMoves (mv :: ms) m = applyMoves ms (applyMove mv m) := rfl
    rw [hstep]
    obtain ⟨a, b, cEq⟩ := ih (applyMove mv m)
    obtain ⟨a', b', c'⟩ := applyMove_geometry mv m
    exact ⟨a.trans a', b.trans b', cEq.trans c'⟩

/-- Iterating `moveDown` `k` times advances the linear index by `k` modulo the
entry count, and keeps the cursor valid. -/
theorem replicate_down_idx (k : Nat) (m : Model) (hg : fullGrid m)
    (hv : validCursor m) :
    validCursor (applyMoves (List.replicate k Move.down) m) ∧
      cursorIdx (applyMoves (List.replicate k Move.down) m) =
        (cursorIdx m + k) % nfiles m := by
  induction k generalizing m with
  | zero =>
    refine ⟨hv, ?_⟩
    have hR : 1 ≤ m.rows := fullGrid_rows_pos m hg
    obtain ⟨hc0, hcC, hr0, hrR, hidx⟩ := hv
    have hcz0 : 0 ≤ m.c * m.rows := mul_nonneg hc0 (by linarith)
    have h0 : 0 ≤ cursorIdx m := by unfold cursorIdx; linarith
    simp only [List.replicate, applyMoves, List.foldl, Nat.cast_zero, add_zero]
    rw [Int.emod_eq_of_lt h0 hidx]
  | succ k ih =>
    have hstep : applyMoves (List.replicate (k + 1) Move.down) m =
        applyMoves (List.replicate k Move.down) (moveDown m) := by
      rw [List.replicate_succ]
      rfl
    have hg' : fullGrid (moveDown m) := fullGrid_applyMove .down m hg
    have hv' : validCursor (moveDown m) := validCursor_moveDown m hg hv
    obtain ⟨ha, hb⟩ := ih (moveDown m) hg' hv'
    rw [hstep]
    refine ⟨ha, ?_⟩
    rw [hb]
    have hgm : (moveDown m).files = m.files := (applyMove_geometry Move.down m).2.2
    have hnf : nfiles (moveDown m) = nfiles m := by
      unfold nfiles
      rw [hgm]
    rw [hnf, moveDown_cursorIdx m hg hv, Int.emod_add_emod]
    congr 1
    push_cast
    ring

/-- A `(column, row)` cell is uniquely determined by its linear index when the
row lies in `[0, rows)`. -/
theorem cell_unique {R c1 r1 c2 r2 : Int} (hR : 0 < R) (h1 : 0 ≤ r1) (h2 : r1 < R)
    (h3 : 0 ≤ r2) (h4 : r2 < R) (heq : c1 * R + r1 = c2 * R + r2) :
    c1 = c2 ∧ r1 = r2 := by
  rcases lt_trichotomy c1 c2 with h | h | h
  · exfalso
    have hm : (1 : Int) * R ≤ (c2 - c1) * R :=
      mul_le_mul_of_nonneg_right (by omega) (by linarith)
    have e : (c2 - c1) * R = c2 * R - c1 * R := by ring
    linarith
  · refine ⟨h, ?_⟩
    rw [h] at heq
    linarith
  · exfalso
    have hm : (1 : Int) * R ≤ (c1 - c2) * R :=
      mul_le_mul_of_nonneg_right (by omega) (by linarith)
    have e : (c1 - c2) * R = c1 * R - c2 * R := by ring
    linarith

/-- Three one-byte file names. -/
def threeFiles : List DirEntry :=
  [⟨"a", false⟩, ⟨"b", false⟩, ⟨"d", false⟩]

/-- A full grid with a short last column: 3 entries in 2 columns of 2 rows. -/
def shortGridModel : Model :=
  { baseModel with files := threeFiles, columns := 2, rows := 2, c := 0, r := 0 }

/-- C5 counterexample.  In the 2×2 grid over 3 entries (a full grid whose last
column is one entry short), applying `moveDown` `columns*rows = 4` times from
the valid cursor `(0,0)` ends at `(0,1)`, not back at the start: the Down
orbit has period `N = 3`, not `columns*rows`. -/
theorem c5_counterexample :
    fullGrid shortGridModel ∧ validCursor shortGridModel ∧
      ¬((applyMoves
            (List.replicate ((shortGridModel.columns * shortGridModel.rows).toNat)
              Move.down) shortGridModel).c = shortGridModel.c ∧
        (applyMoves
            (List.replicate ((shortGridModel.columns * shortGridModel.rows).toNat)
              Move.down) shortGridModel).r = shortGridModel.r) := by
  decide

/-- C5 (amended): on a full grid (last column nonempty), applying `moveDown`
exactly `N` times — `columns*rows` minus the shortfall of the last column —
returns the cursor to its starting `(column, row)` cell. -/
theorem c5_down_cycle (m : Model) (hg : fullGrid m) (hv : validCursor m) :
    (applyMoves (List.replicate m.files.length Move.down) m).c = m.c ∧
      (applyMoves (List.replicate m.files.length Move.down) m).r = m.r := by
  obtain ⟨hva, hidxEq⟩ := replicate_down_idx m.files.length m hg hv
  have hR : 1 ≤ m.rows := fullGrid_rows_pos m hg
  obtain ⟨hC, hn, hnCR, hlast⟩ := hg
  obtain ⟨hc0, hcC, hr0, hrR, hidx⟩ := hv
  have hcz0 : 0 ≤ m.c * m.rows := mul_nonneg hc0 (by linarith)
  have hzero : (cursorIdx m + (m.files.length : Int)) % nfiles m = cursorIdx m := by
    unfold nfiles
    rw [show cursorIdx m + (m.files.length : Int) =
        cursorIdx m + (m.files.length : Int) * 1 from by ring,
      Int.add_mul_emod_self_left]
    exact Int.emod_eq_of_lt (by unfold cursorIdx; linarith) hidx
  rw [hzero] at hidxEq
  have hrows := (applyMoves_geometry (List.replicate m.files.length Move.down) m).2.1
  obtain ⟨hc0', hcC', hr0', hrR', hidx'⟩ := hva
  rw [hrows] at hrR'
  have heq : (applyMoves (List.replicate m.files.length Move.down) m).c * m.rows +
      (applyMoves (List.replicate m.files.length Move.down) m).r =
      m.c * m.rows + m.r := by
    have := hidxEq
    unfold cursorIdx at this
    rw [hrows] at this
    exact this
  have := cell_unique (R := m.rows) (by linarith) hr0' hrR' hr0 hrR heq
  exact this

/-- Witness for `c5_down_cycle`: in the 2×2 grid over 3 entries, 3 Downs
from `(0,0)` come back to `(0,0)`. -/
theorem c5_down_cycle_witness :
    fullGrid shortGridModel ∧ validCursor shortGridModel ∧
      ((applyMoves (List.replicate shortGridModel.files.length Move.down)
          shortGridModel).c = shortGridModel.c ∧
        (applyMoves (List.replicate shortGridModel.files.length Move.down)
            shortGridModel).r = shortGridModel.r) :=
  ⟨by decide, by decide, c5_down_cycle shortGridModel (by decide) (by decide)⟩

/-! ## Offset handling and position memory (`main.go` lines 542-569) -/

/-- `func (m *model) listHeight() int`, lines 542-544. -/
def listHeight (m : Model) : Int :=
  m.height - 1

/-- `func (m *model) updateOffset()`, lines 546-560.  The three `if`s run
sequentially, each reading the offset left by the previous one. -/
def updateOffset (m : Model) : Model :=
  let height := listHeight m
  let m := if m.r ≥ m.offset + height then { m with offset := m.r - height + 1 } else m
  let m := if m.r < m.offset then { m with offset := m.r } else m
  if m.offset > m.rows - height ∧ m.rows > height then
    { m with offset := m.rows - height }
  else m

/-- `func (m *model) saveCursorPosition()`, lines 563-569: Go map assignment
`m.positions[m.path] = position{...}`. -/
def saveCursorPosition (m : Model) : Model :=
  { m with positions := fun k =>
      if k = m.path then some ⟨m.c, m.r, m.offset⟩ else m.positions k }

/-! ## Search engine (`main.go` lines 142-173, 308-311)

`fuzzy.Find` is the external matcher (spec §6): it is passed in as a function
returning ranked matches, each with the source index and the matched
character positions, exactly the fields `Update` reads. -/

/-- One ranked result of the external fuzzy matcher (`fuzzy.Match`):
`Index` and `MatchedIndexes` are Go `int`s. -/
structure FuzzyMatch where
  index : Int
  matchedIndexes : List Int
deriving Repr, DecidableEq

/-- The candidate names handed to the matcher (lines 154-157):
`names[i] = m.files[i].Name()`. -/
def entryNames (m : Model) : List String :=
  m.files.map (fun f => f.name)

/-- The `tea.KeyRunes` branch of `Update` in search mode, lines 152-173:
append the runes to the query, re-run fuzzy matching over the current entry
names, relocate the cursor to the top match (if any), then
`updateOffset`/`saveCursorPosition`.  `index / m.rows` and `index % m.rows`
are Go `int` division/modulus, i.e. `Int.tdiv`/`Int.tmod`.  The deferred
clear-search command the branch returns is modelled by `clearSearch`. -/
def searchKeystroke (find : String → List String → List FuzzyMatch)
    (runes : String) (m : Model) : Model :=
  let m := { m with search := m.search ++ runes }
  let found := find m.search (entryNames m)
  let m :=
    match found with
    | [] => m
    | top :: _ =>
      { m with matchedIndexes := top.matchedIndexes,
               c := Int.tdiv top.index m.rows,
               r := Int.tmod top.index m.rows }
  saveCursorPosition (updateOffset m)

/-- The `keyBack` branch of `Update` in search mode, lines 147-151: when the
query is nonempty, drop its last byte and return immediately — nothing else
runs.  (With an empty query the key falls through to the ascend branch.) -/
def searchBackspace (m : Model) : Model :=
  if 0 < m.search.length then
    { m with search := m.search.take (m.search.length - 1) }
  else m

/-- Modelled from the spec for the C4 refinement comparison — the spec's
words: "Backspace removes the last query character and re-matches (an empty
query leaves the cursor at the last matched position)", with re-matching
relocating the cursor per the top match as in §4.3. -/
def specSearchBackspace (find : String → List String → List FuzzyMatch)
    (m : Model) : Model :=
  let m := { m with search := m.search.take (m.search.length - 1) }
  if m.search.length = 0 then m
  else
    match find m.search (entryNames m) with
    | [] => m
    | top :: _ =>
      { m with matchedIndexes := top.matchedIndexes,
               c := Int.tdiv top.index m.rows,
               r := Int.tmod top.index m.rows }

/-- `case clearSearchMsg` of `Update`, lines 308-311: deactivate search mode
only when the delivered tag equals the current search session id. -/
def clearSearch (tag : Int) (m : Model) : Model :=
  if m.searchId = tag then { m with searchMode := false } else m

/-- C3: a search keystroke relocates the cursor to
`(top.index / rows, top.index % rows)` when the new query has at least one
match, and leaves the cursor `(c, r)` unchanged when it has none. -/
theorem c3_search_keystroke_cursor (find : String → List String → List FuzzyMatch)
    (runes : String) (m : Model) :
    (find (m.search ++ runes) (entryNames m) = [] →
      (searchKeystroke find runes m).c = m.c ∧
        (searchKeystroke find runes m).r = m.r) ∧
    (∀ top rest, find (m.search ++ runes) (entryNames m) = top :: rest →
      (searchKeystroke find runes m).c = Int.tdiv top.index m.rows ∧
        (searchKeystroke find runes m).r = Int.tmod top.index m.rows) := by
  constructor
  · intro h
    simp only [searchKeystroke, entryNames] at *
    rw [h]
    simp only [saveCursorPosition, updateOffset, listHeight]
    split_ifs <;> simp
  · intro top rest h
    simp only [searchKeystroke, entryNames] at *
    rw [h]
    simp only [saveCursorPosition, updateOffset, listHeight]
    split_ifs <;> simp

/-- A concrete fuzzy matcher for witness states: query "b" matches entry 1 at
character position 0. -/
def demoFind : String → List String → List FuzzyMatch :=
  fun q _ => if q = "b" then [⟨1, [0]⟩] else []

/-- A browse state with an active search over `threeFiles` in a 2×2 grid. -/
def searchModel : Model :=
  { baseModel with files := threeFiles, columns := 2, rows := 2,
                   searchMode := true, search := "" }

/-- Witness for `c3_search_keystroke_cursor`: typing "b" snaps the cursor to
entry 1, i.e. cell `(0, 1)`; typing "z" (no matches) leaves it at `(0, 0)`. -/
theorem c3_search_keystroke_cursor_witness :
    ((searchKeystroke demoFind "b" searchModel).c =
        Int.tdiv 1 searchModel.rows ∧
      (searchKeystroke demoFind "b" searchModel).r =
        Int.tmod 1 searchModel.rows) ∧
    ((searchKeystroke demoFind "z" searchModel).c = searchModel.c ∧
      (searchKeystroke demoFind "z" searchModel).r = searchModel.r) :=
  ⟨(c3_search_keystroke_cursor demoFind "b" searchModel).2 ⟨1, [0]⟩ [] (by decide),
    (c3_search_keystroke_cursor demoFind "z" searchModel).1 (by decide)⟩

/-- A concrete fuzzy matcher for the C4 counterexample: the shortened query
"a" has a top match at entry 1. -/
def findShort : String → List String → List FuzzyMatch :=
  fun q _ => if q = "a" then [⟨1, [0]⟩] else []

/-- Search state with query "ab" and the cursor at `(0, 0)`. -/
def c4Model : Model :=
  { baseModel with files := threeFiles, columns := 2, rows := 2,
                   searchMode := true, search := "ab" }

/-- C4 counterexample.  The claim predicts that Backspace re-runs fuzzy
matching with the shortened query and relocates the cursor per its top
match.  In `c4Model` the shortened query "a" has a top match at entry 1
(cell `(0,1)`), yet the code's backspace branch leaves the cursor at
`(0,0)`: it never calls the matcher (compare `specSearchBackspace`, the
spec-predicted behaviour). -/
theorem c4_counterexample :
    0 < c4Model.search.length ∧
      (searchBackspace c4Model).search = "a" ∧
      findShort "a" (entryNames c4Model) ≠ [] ∧
      (searchBackspace c4Model).c = c4Model.c ∧
      (searchBackspace c4Model).r = c4Model.r ∧
      (specSearchBackspace findShort c4Model).r ≠ (searchBackspace c4Model).r := by
  refine ⟨by decide, by decide, by decide, rfl, rfl, by decide⟩

/-- C4 (amended): with search mode active and a nonempty query, Backspace
removes the last query character and returns immediately; no fuzzy
re-matching occurs, so the cursor, offset, matched indexes and position
memory are all left unchanged (in particular the cursor stays at the last
matched position, whether or not the shortened query is empty). -/
theorem c4_backspace_no_rematch (m : Model) (h : 0 < m.search.length) :
    (searchBackspace m).search = m.search.take (m.search.length - 1) ∧
      (searchBackspace m).c = m.c ∧ (searchBackspace m).r = m.r ∧
      (searchBackspace m).offset = m.offset ∧
      (searchBackspace m).matchedIndexes = m.matchedIndexes ∧
      (searchBackspace m).positions = m.positions := by
  unfold searchBackspace
  rw [if_pos h]
  exact ⟨rfl, rfl, rfl, rfl, rfl, rfl⟩

/-- Witness for `c4_backspace_no_rematch` at `c4Model`. -/
theorem c4_backspace_no_rematch_witness :
    0 < c4Model.search.length ∧
      ((searchBackspace c4Model).search =
          c4Model.search.take (c4Model.search.length - 1) ∧
        (searchBackspace c4Model).c = c4Model.c ∧
        (searchBackspace c4Model).r = c4Model.r ∧
        (searchBackspace c4Model).offset = c4Model.offset ∧
        (searchBackspace c4Model).matchedIndexes = c4Model.matchedIndexes ∧
        (searchBackspace c4Model).positions = c4Model.positions) :=
  ⟨by decide, c4_backspace_no_rematch c4Model (by decide)⟩

/-- C6: delivering a deferred clear-search event deactivates search mode
exactly when its tag equals the current session id, and otherwise leaves the
whole model — search mode included — unchanged. -/
theorem c6_clear_search (m : Model) (tag : Int) :
    (tag = m.searchId → clearSearch tag m = { m with searchMode := false }) ∧
      (tag ≠ m.searchId → clearSearch tag m = m) := by
  constructor
  · intro h
    subst h
    unfold clearSearch
    rw [if_pos rfl]
  · intro h
    unfold clearSearch
    rw [if_neg (fun hh => h hh.symm)]

/-- A state with search mode on, session id 5. -/
def clearModel : Model :=
  { baseModel with searchMode := true, searchId := 5 }

/-- Witness for `c6_clear_search`: a matching tag turns search mode off, a
stale tag changes nothing. -/
theorem c6_clear_search_witness :
    clearSearch 5 clearModel = { clearModel with searchMode := false } ∧
      clearSearch 4 clearModel = clearModel :=
  ⟨(c6_clear_search clearModel 5).1 rfl,
    (c6_clear_search clearModel 4).2 (by decide)⟩

/-! ## Preview loader (`main.go` lines 313-331, 601-607)

`os.Open`/`io.ReadAll`, `utf8.Valid`, UTF-8 decoding and the
`warning.Render` styling are external (spec §1, §6); they enter as
parameters.  A failed `os.Open` is the `failure` case carrying
`err.Error()`; a successful open carries the bytes `io.ReadAll` returned
(its error is discarded by the code). -/

/-- Outcome of `os.Open` + `io.ReadAll` for the previewed path. -/
inductive OpenResult where
  | failure (errMsg : String)
  | success (content : List Nat)
deriving Repr, DecidableEq

/-- `Replace(string(content), "\t", "    ", -1)` (line 326): the pattern is
the single character `\t`, so replacing all occurrences is exactly
per-character expansion of every tab to four spaces. -/
def tabExpand (s : String) : String :=
  ⟨s.data.flatMap (fun ch => if ch = '\t' then [' ', ' ', ' ', ' '] else [ch])⟩

/-- The `previewMsg` branch of `Update`, lines 313-331. -/
def loadPreview (utf8Valid : List Nat → Bool) (decode : List Nat → String)
    (render : String → String) (openResult : OpenResult) (m : Model) : Model :=
  match openResult with
  | .failure errMsg => { m with previewContent := errMsg }
  | .success content =>
    if utf8Valid content then
      { m with previewContent := tabExpand (decode content) }
    else
      { m with previewContent := render "No preview available" }

/-- C7: the preview content is the open error's message on failure, the
decoded text with every tab expanded to four spaces on valid UTF-8 bytes,
and the rendered fixed "No preview available" placeholder otherwise — no
partial or binary rendering exists. -/
theorem c7_preview_classification (utf8Valid : List Nat → Bool)
    (decode : List Nat → String) (render : String → String)
    (openResult : OpenResult) (m : Model) :
    (∀ e, openResult = .failure e →
      (loadPreview utf8Valid decode render openResult m).previewContent = e) ∧
    (∀ b, openResult = .success b → utf8Valid b = true →
      (loadPreview utf8Valid decode render openResult m).previewContent =
        tabExpand (decode b)) ∧
    (∀ b, openResult = .success b → utf8Valid b = false →
      (loadPreview utf8Valid decode render openResult m).previewContent =
        render "No preview available") := by
  refine ⟨?_, ?_, ?_⟩
  · rintro e rfl
    rfl
  · rintro b rfl h
    simp [loadPreview, h]
  · rintro b rfl h
    simp [loadPreview, h]

/-- A concrete UTF-8 validity test for the witness (plain ASCII bytes). -/
def demoValid : List Nat → Bool :=
  fun bytes => bytes.all (fun b => b < 128)

/-- A concrete decoder for the witness (ASCII bytes to characters). -/
def demoDecode : List Nat → String :=
  fun bytes => ⟨bytes.map (fun b => Char.ofNat b)⟩

/-- A concrete stand-in for `warning.Render` in the witness. -/
def demoRender : String → String :=
  fun s => "[" ++ s ++ "]"

/-- Witness for `c7_preview_classification`: an open error, ASCII text with
a tab (`"a\tb"` becomes `"a    b"`), and a non-UTF-8 byte. -/
theorem c7_preview_classification_witness :
    (loadPreview demoValid demoDecode demoRender (.failure "open failed")
        baseModel).previewContent = "open failed" ∧
      ((loadPreview demoValid demoDecode demoRender (.success [97, 9, 98])
          baseModel).previewContent = tabExpand (demoDecode [97, 9, 98]) ∧
        tabExpand (demoDecode [97, 9, 98]) = "a    b") ∧
      (loadPreview demoValid demoDecode demoRender (.success [255])
          baseModel).previewContent = demoRender "No preview available" :=
  ⟨(c7_preview_classification demoValid demoDecode demoRender
      (.failure "open failed") baseModel).1 "open failed" rfl,
    ⟨(c7_preview_classification demoValid demoDecode demoRender
        (.success [97, 9, 98]) baseModel).2.1 [97, 9, 98] rfl (by decide),
      by decide⟩,
    (c7_preview_classification demoValid demoDecode demoRender
        (.success [255]) baseModel).2.2 [255] rfl (by decide)⟩

/-! ## Selected file lookup and the Enter / preview commands
(`main.go` lines 188-210, 571-585, 601-607) -/

/-- `func (m *model) fileName() (string, bool)`, lines 571-577.  Go would
panic on a negative index `i`; the claims restrict to `c, r ≥ 0`,
`rows ≥ 1`, where `i ≥ 0` and the in-range lookup always succeeds. -/
def fileName (m : Model) : String × Bool :=
  let i := m.c * m.rows + m.r
  if i ≥ nfiles m then ("", false)
  else
    match m.files.get? i.toNat with
    | some e => (e.name, true)
    | none => ("", false)

/-- `path.Join` (line 584) is external; for the absolute-directory plus
simple-name inputs of the modelled scenarios it is concatenation with a
slash. -/
def pathJoin (dir name : String) : String :=
  dir ++ "/" ++ name

/-- `func (m *model) filePath() (string, bool)`, lines 579-585. -/
def filePath (m : Model) : String × Bool :=
  match fileName m with
  | (fn, false) => (fn, false)
  | (fn, true) => (pathJoin m.path fn, true)

/-- The `keyOpen` branch of `Update`, lines 188-210, for the state changes:
search mode is switched off first; an out-of-range cursor returns right
there; a directory is entered (restoring or zeroing the saved position,
re-listing, then `updateOffset`/`saveCursorPosition` at lines 299-300); a
plain file only launches the external editor, changing no model state.
`fileInfo(...)::IsDir` and `os.ReadDir` are the external file system,
passed in as `isDir` and `listFn`. -/
def enterStep (isDir : String → Bool) (listFn : String → List DirEntry)
    (m : Model) : Model :=
  let m := { m with searchMode := false }
  match filePath m with
  | (_, false) => m
  | (fp, true) =>
    if isDir fp then
      let m := { m with path := fp }
      let m :=
        match m.positions m.path with
        | some p => { m with c := p.c, r := p.r, offset := p.offset }
        | none => { m with c := 0, r := 0, offset := 0 }
      let m := { m with files := listFn m.path }
      saveCursorPosition (updateOffset m)
    else m

/-- `func (m *model) previewCmd() tea.Msg`, lines 601-607: the message it
posts, `none` when the cursor is out of range (so the `previewMsg` branch
never runs and the model is untouched). -/
def previewCmdMsg (m : Model) : Option String :=
  match filePath m with
  | (_, false) => none
  | (fp, true) => some fp

/-- An out-of-range-cursor state with search mode on: no files, cursor
`(0,0)` in a 1-row grid. -/
def c10Model : Model :=
  { baseModel with files := [], rows := 1, searchMode := true }

/-- C10 counterexample.  With the cursor out of range (`fileName` returns
`ok = false`), pressing Enter is *not* a complete no-op: the branch first
sets `m.searchMode = false`, so from a state with search mode active the
model changes. -/
theorem c10_counterexample :
    (fileName c10Model).2 = false ∧
      enterStep (fun _ => false) (fun _ => []) c10Model ≠ c10Model := by
  refine ⟨by decide, fun h => ?_⟩
  have h2 : (enterStep (fun _ => false) (fun _ => []) c10Model).searchMode =
      c10Model.searchMode := congrArg Model.searchMode h
  exact absurd h2 (by decide)

/-- C10 (amended): for `rows ≥ 1`, `c ≥ 0`, `r ≥ 0`, `fileName` and
`filePath` return no value (`ok = false`) exactly when
`c*rows + r ≥ N`; in that case pressing Enter changes nothing except
deactivating search mode, and the preview-load command posts no message, so
delivering it leaves the model unchanged. -/
theorem c10_out_of_range (m : Model) (hrows : 1 ≤ m.rows) (hc : 0 ≤ m.c)
    (hr : 0 ≤ m.r) :
    ((fileName m).2 = false ↔ m.c * m.rows + m.r ≥ nfiles m) ∧
      ((filePath m).2 = false ↔ m.c * m.rows + m.r ≥ nfiles m) ∧
      (m.c * m.rows + m.r ≥ nfiles m →
        ∀ isDir listFn, enterStep isDir listFn m = { m with searchMode := false } ∧
          previewCmdMsg m = none) := by
  have hpair : (filePath m).2 = (fileName m).2 := by
    unfold filePath
    rcases hf : fileName m with ⟨fn, ok⟩
    cases ok <;> simp
  have hmain : (fileName m).2 = false ↔ m.c * m.rows + m.r ≥ nfiles m := by
    unfold fileName
    by_cases h : m.c * m.rows + m.r ≥ nfiles m
    · rw [if_pos h]
      simpa using h
    · rw [if_neg h]
      have hcz : 0 ≤ m.c * m.rows := mul_nonneg hc (by linarith)
      have hlt : (m.c * m.rows + m.r).toNat < m.files.length := by
        unfold nfiles at h
        omega
      rcases List.get?_eq_get hlt with hsome
      rw [hsome]
      simpa using h
  refine ⟨hmain, hpair.symm ▸ hmain, ?_⟩
  intro h isDir listFn
  have hfn : fileName m = ("", false) := by
    unfold fileName
    rw [if_pos h]
  have hfp : filePath m = ("", false) := by
    unfold filePath
    rw [hfn]
  constructor
  · have hfp' : filePath { m with searchMode := false } = ("", false) := hfp
    simp only [enterStep, hfp']
  · unfold previewCmdMsg
    rw [hfp]

/-- Witness for `c10_out_of_range` at `c10Model`. -/
theorem c10_out_of_range_witness :
    ((fileName c10Model).2 = false ↔
        c10Model.c * c10Model.rows + c10Model.r ≥ nfiles c10Model) ∧
      ((filePath c10Model).2 = false ↔
        c10Model.c * c10Model.rows + c10Model.r ≥ nfiles c10Model) ∧
      (c10Model.c * c10Model.rows + c10Model.r ≥ nfiles c10Model →
        ∀ isDir listFn,
          enterStep isDir listFn c10Model =
              { c10Model with searchMode := false } ∧
            previewCmdMsg c10Model = none) :=
  c10_out_of_range c10Model (by decide) (by decide) (by decide)

/-! ## Grid layout engine (`main.go` lines 408-468)

Go's `len` on strings counts bytes; `golen` is `String.utf8ByteSize`.
The `goto start` retry loop decrementing `m.columns` is the structural
recursion `fitColumns`. -/

/-- Go `len(s)`: the byte length of a string. -/
def golen (s : String) : Nat :=
  s.utf8ByteSize

/-- Lines 434-444: an entry's displayed name — directories get a trailing
slash before widths are measured. -/
def decoratedName (e : DirEntry) : String :=
  e.name ++ (if e.isDir then "/" else "")

/-- Line 425: `rows = int(math.Ceil(float64(len(files)) / float64(columns)))`
(exact for the integer ranges involved). -/
def ceilRows (n cols : Nat) : Nat :=
  (n + cols - 1) / cols

/-- Lines 428-450: cell `(i, j)` holds entry `i*rows + j` when that index is
in range (entries are assigned column-major) and is empty otherwise. -/
def cellName (files : List DirEntry) (rows i j : Nat) : String :=
  match files.get? (i * rows + j) with
  | some e => decoratedName e
  | none => ""

/-- Lines 430-450: a column's width is the maximum byte length of its cells,
starting from 0. -/
def colMax (files : List DirEntry) (rows i : Nat) : Nat :=
  (List.range rows).foldl (fun mx j => max mx (golen (cellName files rows i j))) 0

/-- Lines 451-454: every cell is padded with spaces to its column's width. -/
def paddedCell (files : List DirEntry) (rows i j : Nat) : String :=
  cellName files rows i j ++
    ⟨List.replicate (colMax files rows i - golen (cellName files rows i j)) ' '⟩

/-- Line 457: the fixed four-space separator between columns. -/
def separator : String :=
  "    "

/-- Lines 458-462: row `j` as rendered — the row's padded cells joined with
the separator. -/
def renderedRow (files : List DirEntry) (cols rows j : Nat) : String :=
  String.intercalate separator
    ((List.range cols).map (fun i => paddedCell files rows i j))

/-- Lines 458-467: does some row's joined byte length exceed the width? -/
def anyRowTooWide (files : List DirEntry) (cols rows : Nat) (width : Int) : Bool :=
  (List.range rows).any (fun j => (golen (renderedRow files cols rows j) : Int) > width)

/-- The `goto start` retry loop, lines 422-468: while some row overflows and
`columns > 1`, decrement `columns` and rebuild. -/
def fitColumns (files : List DirEntry) (width : Int) : Nat → Nat
  | 0 => 0
  | 1 => 1
  | c + 2 =>
    if anyRowTooWide files (c + 2) (ceilRows files.length (c + 2)) width then
      fitColumns files width (c + 1)
    else c + 2

/-- Lines 413-419: the heuristic initial column count
`len(m.files) / (height / 3)`, floored to 1.  (Go int division is `Int.tdiv`;
Go panics when `listHeight < 3` — the model is only used with
`listHeight ≥ 3`.) -/
def initialColumns (m : Model) : Int :=
  let c := Int.tdiv (nfiles m) (Int.tdiv (listHeight m) 3)
  if c ≤ 0 then 1 else c

/-- Lines 409-412: the width the listing must fit in — half the terminal in
preview mode. -/
def viewWidth (m : Model) : Int :=
  if m.previewMode then Int.tdiv m.width 2 else m.width

/-- The column count `View` settles on. -/
def viewColumns (m : Model) : Nat :=
  fitColumns m.files (viewWidth m) (initialColumns m).toNat

/-- The row count `View` settles on (line 425 at the accepted columns). -/
def viewRows (m : Model) : Nat :=
  ceilRows m.files.length (viewColumns m)

/-- The heuristic start is at least one column. -/
theorem initialColumns_pos (m : Model) : 1 ≤ initialColumns m := by
  unfold initialColumns
  dsimp only
  split_ifs with h <;> omega

/-- The fitting loop never drops below one column. -/
theorem fitColumns_pos (files : List DirEntry) (width : Int) :
    ∀ start, 1 ≤ start → 1 ≤ fitColumns files width start := by
  intro start
  induction start with
  | zero => omega
  | succ c ih =>
    intro _
    rcases c with _ | c'
    · exact le_refl 1
    · by_cases hw : anyRowTooWide files (c' + 2) (ceilRows files.length (c' + 2)) width = true
      · rw [fitColumns, if_pos hw]
        exact ih (by omega)
      · rw [fitColumns, if_neg hw]
        omega

/-- The fitting loop stops only at one column or at a geometry where no
rendered row exceeds the width. -/
theorem fitColumns_fit (files : List DirEntry) (width : Int) :
    ∀ start, 1 ≤ start →
      fitColumns files width start = 1 ∨
        anyRowTooWide files (fitColumns files width start)
          (ceilRows files.length (fitColumns files width start)) width = false := by
  intro start
  induction start with
  | zero => omega
  | succ c ih =>
    intro _
    rcases c with _ | c'
    · exact Or.inl rfl
    · by_cases hw : anyRowTooWide files (c' + 2) (ceilRows files.length (c' + 2)) width = true
      · rw [fitColumns, if_pos hw]
        exact ih (by omega)
      · rw [fitColumns, if_neg hw]
        exact Or.inr (eq_false_of_ne_true hw)

/-- `ceilRows` is the ceiling of `n / cols`: characterised by
`n ≤ cols*rows < n + cols`. -/
theorem ceilRows_bounds (n c : Nat) (hc : 1 ≤ c) :
    n ≤ c * ceilRows n c ∧ c * ceilRows n c < n + c := by
  unfold ceilRows
  have hdm := Nat.div_add_mod (n + c - 1) c
  have hlt : (n + c - 1) % c < c := Nat.mod_lt _ (by omega)
  omega

/-- C2: for any entry list and display width `W ≥ 1`, `View`'s layout
computation returns `columns ≥ 1` and `rows = ceil(N/columns)` (characterised
by `N ≤ columns*rows < N + columns`), and every rendered row — per-column
max-width-padded cells joined with the fixed separator — has byte length at
most `W`, unless `columns = 1`, which is accepted regardless of width. -/
theorem c2_layout_fit (m : Model) (_hW : 1 ≤ viewWidth m) :
    1 ≤ viewColumns m ∧
      (viewRows m = ceilRows m.files.length (viewColumns m) ∧
        m.files.length ≤ viewColumns m * viewRows m ∧
        viewColumns m * viewRows m < m.files.length + viewColumns m) ∧
      (viewColumns m = 1 ∨
        ∀ j < viewRows m,
          (golen (renderedRow m.files (viewColumns m) (viewRows m) j) : Int) ≤
            viewWidth m) := by
  have hstart : 1 ≤ (initialColumns m).toNat := by
    have := initialColumns_pos m
    omega
  have hpos : 1 ≤ viewColumns m := fitColumns_pos m.files (viewWidth m) _ hstart
  refine ⟨hpos, ⟨rfl, ?_, ?_⟩, ?_⟩
  · exact (ceilRows_bounds m.files.length (viewColumns m) hpos).1
  · exact (ceilRows_bounds m.files.length (viewColumns m) hpos).2
  · rcases fitColumns_fit m.files (viewWidth m) _ hstart with h | h
    · exact Or.inl h
    · refine Or.inr fun j hj => ?_
      have h' : anyRowTooWide m.files (viewColumns m) (viewRows m) (viewWidth m) =
          false := h
      rw [anyRowTooWide, List.any_eq_false] at h'
      have hj' := h' j (List.mem_range.mpr hj)
      simpa using hj'

/-- A concrete state for the C2 witness: three entries, width 10. -/
def layoutModel : Model :=
  { baseModel with files := [⟨"aa", false⟩, ⟨"b", true⟩, ⟨"ccc", false⟩],
                   width := 10, height := 7 }

/-- Witness for `c2_layout_fit` at `layoutModel`. -/
theorem c2_layout_fit_witness :
    1 ≤ viewColumns layoutModel ∧
      (viewRows layoutModel =
          ceilRows layoutModel.files.length (viewColumns layoutModel) ∧
        layoutModel.files.length ≤ viewColumns layoutModel * viewRows layoutModel ∧
        viewColumns layoutModel * viewRows layoutModel <
          layoutModel.files.length + viewColumns layoutModel) ∧
      (viewColumns layoutModel = 1 ∨
        ∀ j < viewRows layoutModel,
          (golen (renderedRow layoutModel.files (viewColumns layoutModel)
              (viewRows layoutModel) j) : Int) ≤ viewWidth layoutModel) :=
  c2_layout_fit layoutModel (by decide)

/-! ## Location / filter bar (`main.go` lines 494-510)

`location` is `m.path` after the external home-directory replacement
(identity when `os.UserHomeDir` fails or the home is not a prefix); it is
passed in as the already-replaced string. -/

/-- Lines 499-503: the green filter segment, `"/" + m.search` while search
mode is active. -/
def barFilter (m : Model) : String :=
  if m.searchMode then "/" ++ m.search else ""

/-- Line 504: `barLen := len(location) + len(filter)`. -/
def barLen (location : String) (m : Model) : Int :=
  (golen location : Int) + (golen (barFilter m) : Int)

/-- Line 508: the lower bound of the slice `location[barLen-width:]` that
left-truncates the location when the bar overflows. -/
def locationSliceLow (location : String) (m : Model) : Int :=
  barLen location m - viewWidth m

/-- A state whose bar overflows: search mode active with query "abcdefgh",
path "/p", width 5. -/
def c9Model : Model :=
  { baseModel with path := "/p", searchMode := true, search := "abcdefgh",
                   width := 5 }

/-- C9: there is a state with search mode active where the location plus
filter text exceeds the display width and the truncation's slice lower
bound `barLen - width` exceeds the location's length — an out-of-range
(effectively negative-length) slice, not clamped at zero.  (Go panics on
`location[low:]` when `low > len(location)`; the code's own TODO at lines
505-507 records this.) -/
theorem c9_negative_slice :
    c9Model.searchMode = true ∧
      barLen c9Model.path c9Model > viewWidth c9Model ∧
      locationSliceLow c9Model.path c9Model > (golen c9Model.path : Int) := by
  decide

/-! ## View's state mutations and the per-directory position memory
(`main.go` lines 188-230, 408-492, 563-569)

`View` recomputes `m.columns`/`m.rows`, relocates the cursor to `prevName`
when `findPrevName` is set (the scan at lines 436-439 runs while the cells
are built, so the *last* matching linear index wins), and then resets the
flag and runs `updateOffset`/`saveCursorPosition` (lines 471-475). -/

/-- Lines 436-439: the last linear index `k` with `files[k].Name() ==
prevName` (the scan assigns `m.c`, `m.r` at every match, so the last one in
column-major order stands). -/
def findLastIdx (files : List DirEntry) (nm : String) : Option Nat :=
  (List.range files.length).foldl
    (fun acc k =>
      match files.get? k with
      | some e => if e.name = nm then some k else acc
      | none => acc)
    none

/-- The model-state changes `View` performs (rendering aside): recompute the
grid, then handle `findPrevName` (lines 408-475). -/
def viewStep (m : Model) : Model :=
  let cols := viewColumns m
  let rows := viewRows m
  let m := { m with columns := (cols : Int), rows := (rows : Int) }
  if m.findPrevName then
    let m :=
      match findLastIdx m.files m.prevName with
      | some k => { m with c := ((k / rows : Nat) : Int), r := ((k % rows : Nat) : Int) }
      | none => m
    saveCursorPosition (updateOffset { m with findPrevName := false })
  else m

/-- The `keyBack` branch of `Update`, lines 212-229: leave search mode,
remember the directory's base name, move to the parent path, restore its
saved position if any (else arm `findPrevName`), and re-list.  The branch
returns directly, skipping lines 299-300.  `filepath.Base` and
`filepath.Join(path, "..")` are external path operations, passed in. -/
def backStep (baseOf parentOf : String → String)
    (listFn : String → List DirEntry) (m : Model) : Model :=
  let m := { m with searchMode := false }
  let m := { m with prevName := baseOf m.path }
  let m := { m with path := parentOf m.path }
  let m :=
    match m.positions m.path with
    | some p => { m with c := p.c, r := p.r, offset := p.offset }
    | none => { m with findPrevName := true }
  { m with files := listFn m.path }

/-- A directional-key `Update`: the move, then `updateOffset` and
`saveCursorPosition` (lines 231-300). -/
def moveStep (mv : Move) (m : Model) : Model :=
  saveCursorPosition (updateOffset (applyMove mv m))

/-- The two-directory file system of the C8 journey: `/p` holds the
directory `a` and three files; `/p/a` holds six files. -/
def fsList : String → List DirEntry :=
  fun s =>
    if s = "/p" then [⟨"a", true⟩, ⟨"b", false⟩, ⟨"d", false⟩, ⟨"e", false⟩]
    else if s = "/p/a" then
      [⟨"f", false⟩, ⟨"g", false⟩, ⟨"h", false⟩, ⟨"i", false⟩,
        ⟨"j", false⟩, ⟨"k", false⟩]
    else []

/-- `fileInfo(path).IsDir()` over that file system. -/
def fsIsDir : String → Bool :=
  fun s => s = "/p/a"

/-- `filepath.Base` for the journey's paths. -/
def fsBase : String → String :=
  fun s => if s = "/p/a" then "a" else ""

/-- `filepath.Join(path, "..")` for the journey's paths. -/
def fsParent : String → String :=
  fun s => if s = "/p/a" then "/p" else ""

/-- The journey's start: terminal 5×4, browsing `/p`, first render done. -/
def j1 : Model :=
  viewStep { baseModel with path := "/p", files := fsList "/p", width := 5, height := 4 }

/-- Enter `a` (first entry, cursor `(0,0)`), then render. -/
def j2 : Model :=
  viewStep (enterStep fsIsDir fsList j1)

/-- Five Downs inside `/p/a` (each with its render), scrolling to
`(0, 5, offset 3)`. -/
def j7 : Model :=
  viewStep (moveStep .down (viewStep (moveStep .down (viewStep (moveStep .down
    (viewStep (moveStep .down (viewStep (moveStep .down j2)))))))))

/-- Ascend back to `/p` (cursor relocated to `a` via `findPrevName`), then
render. -/
def j8 : Model :=
  viewStep (backStep fsBase fsParent fsList j7)

/-- Re-descend into `/p/a`. -/
def j9 : Model :=
  enterStep fsIsDir fsList j8

set_option maxRecDepth 100000 in
/-- C8 counterexample.  Before ascending, the position saved for `/p/a` is
`(0, 5, 3)`.  On re-descending, the cursor is restored to `(0, 5)` but the
offset comes out as 1, not 3: `updateOffset` runs before the next render,
with `m.rows` still the parent's row count 4, and its clamp
`offset > rows - height` fires on the stale geometry.  No resize or preview
toggle happens anywhere in the journey. -/
theorem c8_counterexample :
    j7.positions "/p/a" = some ⟨0, 5, 3⟩ ∧
      j9.c = 0 ∧ j9.r = 5 ∧ j9.offset = 1 ∧ j9.offset ≠ 3 := by
  decide

/-- C8 (amended): re-descending into a directory with a saved position
`(c, r, offset)` always restores the cursor `(c, r)` exactly; the offset is
also restored exactly provided `updateOffset` — which runs with the row
count of the *previous* render still in place — does not fire any of its
three adjustments on the stale geometry (for a consistently saved position,
`offset ≤ r < offset + (height-1)`, only the clamp
`offset > rows - (height-1) ∧ rows > height-1` can fire; when it does the
offset is clamped instead). -/
theorem updateOffset_c (m : Model) : (updateOffset m).c = m.c := by
  simp only [updateOffset]
  split_ifs <;> rfl

theorem updateOffset_r (m : Model) : (updateOffset m).r = m.r := by
  simp only [updateOffset]
  split_ifs <;> rfl

/-- When none of its three adjustments fires, `updateOffset` changes
nothing. -/
theorem updateOffset_noop (m : Model)
    (h1 : ¬(m.r ≥ m.offset + listHeight m)) (h2 : ¬(m.r < m.offset))
    (h3 : ¬(m.offset > m.rows - listHeight m ∧ m.rows > listHeight m)) :
    updateOffset m = m := by
  simp only [updateOffset]
  split_ifs
  rfl

theorem saveCursorPosition_c (m : Model) : (saveCursorPosition m).c = m.c :=
  rfl

theorem saveCursorPosition_r (m : Model) : (saveCursorPosition m).r = m.r :=
  rfl

theorem saveCursorPosition_offset (m : Model) :
    (saveCursorPosition m).offset = m.offset :=
  rfl

theorem c8_position_restore (m : Model) (fp : String) (p : Position)
    (isDir : String → Bool) (listFn : String → List DirEntry)
    (hfp : filePath m = (fp, true)) (hdir : isDir fp = true)
    (hpos : m.positions fp = some p) :
    ((enterStep isDir listFn m).c = p.c ∧ (enterStep isDir listFn m).r = p.r) ∧
      (p.offset ≤ p.r → p.r < p.offset + (m.height - 1) →
        ¬(p.offset > m.rows - (m.height - 1) ∧ m.rows > m.height - 1) →
        (enterStep isDir listFn m).offset = p.offset) := by
  have hfp' : filePath { m with searchMode := false } = (fp, true) := hfp
  have hM : enterStep isDir listFn m =
      saveCursorPosition (updateOffset
        { m with searchMode := false, path := fp, c := p.c, r := p.r,
                 offset := p.offset, files := listFn fp }) := by
    simp only [enterStep, hfp', hdir, eq_self_iff_true, if_true, hpos]
  rw [hM]
  refine ⟨⟨?_, ?_⟩, ?_⟩
  · rw [saveCursorPosition_c, updateOffset_c]
  · rw [saveCursorPosition_r, updateOffset_r]
  · intro h1 h2 h3
    rw [saveCursorPosition_offset,
      updateOffset_noop _ (by show ¬(p.r ≥ p.offset + (m.height - 1)); omega)
        (by show ¬(p.r < p.offset); omega)
        (by show ¬(p.offset > m.rows - (m.height - 1) ∧ m.rows > m.height - 1)
            exact h3)]

/-- A state for the `c8_position_restore` witness: parent `/p` (rows 4,
height 4) with a saved position `(0, 1, 0)` for `/p/a` and the cursor on
`a`. -/
def restoreModel : Model :=
  { baseModel with path := "/p", files := fsList "/p", columns := 1, rows := 4,
                   width := 5, height := 4,
                   positions := fun k => if k = "/p/a" then some ⟨0, 1, 0⟩ else none }

/-- Witness for `c8_position_restore`: re-entering `/p/a` from
`restoreModel` restores `(0, 1, 0)` exactly. -/
theorem c8_position_restore_witness :
    ((enterStep fsIsDir fsList restoreModel).c = (0 : Int) ∧
        (enterStep fsIsDir fsList restoreModel).r = (1 : Int)) ∧
      (enterStep fsIsDir fsList restoreModel).offset = (0 : Int) :=
  have h := c8_position_restore restoreModel "/p/a" ⟨0, 1, 0⟩ fsIsDir fsList
    (by decide) (by decide) (by decide)
  ⟨h.1, h.2 (by decide) (by decide) (by decide)⟩

end Llama
